import Mathlib

/-!
A verification development for the HCL marshalling package (`marshal.go`).

The Go source is shallowly embedded: runtime values reachable by the Value
Encoder's dispatch become the inductive `GoValue`, their types become `GoType`,
the AST data model (`Entry`/`Block`/`Attribute`/`Value`/`MapEntry`) becomes
plain inductive types, and the encoder / renderer functions become total Lean
functions returning `EncResult` (distinguishing a returned `error` from a Go
`panic`).

The repository file containing the AST declarations, `flattenFields`,
`parseTag`, `attrSchema`, `sliceToBlockSchema` and `Value.String` is not part
of the sources given here; those definitions are modelled from the spec and
are marked as such in their doc comments.  Everything else is translated
directly from `marshal.go`.
-/

/-- The structured field descriptor produced by the external Tag Interpreter
(spec section 6): `{name, is-label, is-block, is-optional, comment lines}`.
`parseTag` / `tag.comments()` are collaborators outside the given sources, so
a field's descriptor is carried directly. -/
structure Tag where
  name : String
  label : Bool
  block : Bool
  optional : Bool
  comments : List String
deriving Repr, DecidableEq

/-- Go runtime types, restricted to the categories the Value Encoder
dispatches on (`marshal.go`, `valueToValue`): `time.Duration`, types
implementing `encoding.TextMarshaler` / `json.Marshaler`, strings, slices,
string-keyed maps, floats, signed and unsigned integers, booleans,
`time.Time`, struct types, and anything else (`other`, which matches no
dispatch rule).  Numeric kinds are collapsed to one representative each since
`valueToValue` treats all widths of a kind identically. -/
inductive GoType where
  | duration : GoType
  | textM (tyName : String) : GoType
  | jsonM (tyName : String) : GoType
  | str : GoType
  | slice (elem : GoType) : GoType
  | mapStr (elem : GoType) : GoType
  | float : GoType
  | int : GoType
  | uint : GoType
  | bool : GoType
  | time : GoType
  | struct (fields : List (Tag × GoType)) : GoType
  | other (tyName : String) : GoType
deriving Repr

/-- Go runtime values, one constructor per category of `valueToValue`'s
dispatch.  A `textM`/`jsonM` value carries the result its own
`MarshalText`/`MarshalJSON` hook would return; a `time` value carries its
RFC 3339 rendering (the standard library formatter is abstracted to the string
it produces); slices and maps carry a nil-ness flag (Go distinguishes a nil
slice/map from an empty one for `IsZero`, but not for encoding). -/
inductive GoValue where
  | duration (ns : Int) : GoValue
  | textM (tyName : String) (res : Except String String) : GoValue
  | jsonM (tyName : String) (res : Except String String) : GoValue
  | str (s : String) : GoValue
  | slice (isNil : Bool) (elem : GoType) (elems : List GoValue) : GoValue
  | mapStr (isNil : Bool) (elem : GoType) (entries : List (String × GoValue)) : GoValue
  | float (val : ℚ) : GoValue
  | int (n : Int) : GoValue
  | uint (n : Nat) : GoValue
  | bool (b : Bool) : GoValue
  | time (rfc3339 : String) : GoValue
  | struct (fields : List (Tag × GoValue)) : GoValue
  | other (tyName : String) : GoValue
deriving Repr

/-- A `math/big` `big.Float`: an arbitrary-precision binary floating point
number.  Only its precision and its exact mathematical value (always a
rational with a power-of-two denominator) are modelled. -/
structure BigFloat where
  prec : Nat
  val : ℚ
deriving Repr, DecidableEq

/-- Round-to-nearest-even of an integer to `p` significant bits, the rounding
`big.Float` applies when it stores an integer at precision `p`.  When the
magnitude already fits in `p` bits the value is kept exactly. -/
def roundToBits (p : Nat) (m : Int) : ℚ :=
  let a := m.natAbs
  if a < 2 ^ p then (m : ℚ)
  else
    let e := a.size - p
    let q := a / 2 ^ e
    let r := a % 2 ^ e
    let half := 2 ^ (e - 1)
    let q' := if half < r ∨ (r = half ∧ q % 2 = 1) then q + 1 else q
    (Int.sign m : ℚ) * (q' : ℚ) * ((2 : ℚ) ^ e)

/-- Go `big.NewFloat(0).SetInt64(x)`: `NewFloat` returns a `big.Float` with
precision 53 (and rounding mode to-nearest-even), and `SetInt64` only changes
a precision of 0 (to 64), so the receiver keeps precision 53 and the argument
is rounded to 53 significant bits. -/
def bigFloatSetInt64 (n : Int) : BigFloat :=
  { prec := 53, val := roundToBits 53 n }

/-- Go `big.NewFloat(0).SetUint64(x)`: same as `SetInt64` for an unsigned
argument — precision 53 kept, the value rounded to 53 significant bits. -/
def bigFloatSetUint64 (n : Nat) : BigFloat :=
  { prec := 53, val := roundToBits 53 (n : Int) }

/-- Go `big.NewFloat(x)` for a `float64` `x`: precision 53, value kept exactly
(every `float64` is a 53-bit dyadic rational). -/
def bigFloatOfFloat64 (q : ℚ) : BigFloat :=
  { prec := 53, val := q }

mutual
/-- The AST `Value` node.  Modelled from the spec (section 3) and from the
uses in `marshal.go`: a record of optional `Str` / `Number` / `Bool` variants
plus a `List` and a `Map` each guarded by an explicit presence flag
(`HaveList` / `HaveMap`). -/
inductive Value where
  | mk (str : Option String) (number : Option BigFloat) (boolv : Option Bool)
      (haveList : Bool) (list : List Value)
      (haveMap : Bool) (entries : List MapEntry) : Value

/-- The AST `MapEntry` node: key (a `Str`-variant `Value`), value, attached
comment lines. -/
inductive MapEntry where
  | mk (key : Value) (value : Value) (comments : List String) : MapEntry
end

def Value.str : Value → Option String
  | .mk s _ _ _ _ _ _ => s

def Value.number : Value → Option BigFloat
  | .mk _ n _ _ _ _ _ => n

def Value.boolv : Value → Option Bool
  | .mk _ _ b _ _ _ _ => b

def Value.haveList : Value → Bool
  | .mk _ _ _ hl _ _ _ => hl

def Value.list : Value → List Value
  | .mk _ _ _ _ l _ _ => l

def Value.haveMap : Value → Bool
  | .mk _ _ _ _ _ hm _ => hm

def Value.mapEntries : Value → List MapEntry
  | .mk _ _ _ _ _ _ m => m

def MapEntry.key : MapEntry → Value
  | .mk k _ _ => k

def MapEntry.value : MapEntry → Value
  | .mk _ v _ => v

def MapEntry.comments : MapEntry → List String
  | .mk _ _ c => c

/-- Builds `&Value{Str: &s}`. -/
def strValue (s : String) : Value :=
  .mk (some s) none none false [] false []

/-- Builds `&Value{Number: n}`. -/
def numValue (n : BigFloat) : Value :=
  .mk none (some n) none false [] false []

/-- Builds `&Value{Bool: (*Bool)(&b)}`. -/
def boolValue (b : Bool) : Value :=
  .mk none none (some b) false [] false []

/-- Builds `&Value{List: list, HaveList: true}`. -/
def listValue (l : List Value) : Value :=
  .mk none none none true l false []

/-- Builds `&Value{Map: entries, HaveMap: true}`. -/
def mapValue (m : List MapEntry) : Value :=
  .mk none none none false [] true m

/-- The AST `Attribute` node: `Key` and `Value`. -/
structure Attribute where
  key : String
  value : Value

mutual
/-- The AST `Entry` node: at most one of `Attribute` / `Block` is populated,
plus leading comment lines. -/
inductive Entry where
  | mk (attr : Option Attribute) (block : Option Block)
      (comments : List String) : Entry

/-- The AST `Block` node: `Name`, `Labels`, `Body`. -/
inductive Block where
  | mk (name : String) (labels : List String) (body : List Entry) : Block
end

def Entry.attr : Entry → Option Attribute
  | .mk a _ _ => a

def Entry.block : Entry → Option Block
  | .mk _ b _ => b

def Entry.comments : Entry → List String
  | .mk _ _ c => c

def Block.name : Block → String
  | .mk n _ _ => n

def Block.labels : Block → List String
  | .mk _ l _ => l

def Block.body : Block → List Entry
  | .mk _ _ b => b

/-- The AST root: an ordered sequence of entries. -/
structure AST where
  entries : List Entry

/-- One decimal digit character. -/
def digitChar (d : Nat) : Char :=
  Char.ofNat (48 + d % 10)

/-- The digit-accumulating loop of Go's `time.fmtFrac`: processes `prec`
digits of `u` from the least significant end, keeping a digit only once a
non-zero digit has been seen (so trailing zeros of the fraction are
omitted). -/
def fmtFracLoop : Nat → Nat → Bool → String → String × Nat × Bool
  | u, 0, print, acc => (acc, u, print)
  | u, prec + 1, print, acc =>
    let d := u % 10
    let print' := print || decide (d ≠ 0)
    let acc' := if print' then String.singleton (digitChar d) ++ acc else acc
    fmtFracLoop (u / 10) prec print' acc'

/-- Go's `time.fmtFrac`: format the fraction of `u` (`prec` decimal digits),
omitting trailing zeros and the decimal point when the fraction is zero;
returns the formatted fraction and `u` divided by `10^prec`. -/
def fmtFrac (u : Nat) (prec : Nat) : String × Nat :=
  let (acc, u', print) := fmtFracLoop u prec false ""
  (if print then "." ++ acc else "", u')

/-- Go's `time.Duration.String`, translated from the standard library: the
canonical unit-suffixed rendering (`"1h30m0s"`, `"1.5µs"`, `"0s"`, ...) of a
duration in nanoseconds. -/
def durationString (ns : Int) : String :=
  let u := ns.natAbs
  let core :=
    if u < 1000000000 then
      if u = 0 then "0s"
      else if u < 1000 then toString u ++ "ns"
      else if u < 1000000 then
        let (frac, u') := fmtFrac u 3
        toString u' ++ frac ++ "µs"
      else
        let (frac, u') := fmtFrac u 6
        toString u' ++ frac ++ "ms"
    else
      let (frac, secs) := fmtFrac u 9
      let s0 := toString (secs % 60) ++ frac ++ "s"
      let m := secs / 60
      if 0 < m then
        let s1 := toString (m % 60) ++ "m" ++ s0
        let h := m / 60
        if 0 < h then toString h ++ "h" ++ s1 else s1
      else s0
  if ns < 0 then "-" ++ core else core

example : durationString (90 * 60 * 1000000000) = "1h30m0s" := by decide
example : durationString 1500 = "1.5µs" := by decide
example : durationString 0 = "0s" := by decide
example : durationString 3600000000000 = "1h0m0s" := by decide

mutual
/-- Go `reflect.Value.Type()` on an embedded value. -/
def goTypeOf : GoValue → GoType
  | .duration _ => .duration
  | .textM n _ => .textM n
  | .jsonM n _ => .jsonM n
  | .str _ => .str
  | .slice _ e _ => .slice e
  | .mapStr _ e _ => .mapStr e
  | .float _ => .float
  | .int _ => .int
  | .uint _ => .uint
  | .bool _ => .bool
  | .time _ => .time
  | .struct fs => .struct (goTypeOfFields fs)
  | .other n => .other n

def goTypeOfFields : List (Tag × GoValue) → List (Tag × GoType)
  | [] => []
  | (t, v) :: rest => (t, goTypeOf v) :: goTypeOfFields rest
end

/-- Go `reflect.Type.String()`: the Go name of a type (numeric kinds are
collapsed to one representative width, and anonymous struct types print a
fixed placeholder). -/
def goTypeName : GoType → String
  | .duration => "time.Duration"
  | .textM n => n
  | .jsonM n => n
  | .str => "string"
  | .slice e => "[]" ++ goTypeName e
  | .mapStr e => "map[string]" ++ goTypeName e
  | .float => "float64"
  | .int => "int64"
  | .uint => "uint64"
  | .bool => "bool"
  | .time => "time.Time"
  | .struct _ => "struct \x7b...\x7d"
  | .other n => n

/-- Go `reflect.Value.String()`: the string itself for a string value, and
`"<T Value>"` for every other kind. -/
def goString (v : GoValue) : String :=
  match v with
  | .str s => s
  | v => "<" ++ goTypeName (goTypeOf v) ++ " Value>"

mutual
/-- Go `reflect.Value.IsZero()`: zero nanoseconds, empty string, nil slice/map,
numeric zero, `false`, the zero `time.Time`, all-fields-zero for a struct.
Zero-ness of opaque marshaler and unsupported types is not inspected by any
code path modelled here and is taken as `false`. -/
def isZero : GoValue → Bool
  | .duration ns => ns == 0
  | .textM _ _ => false
  | .jsonM _ _ => false
  | .str s => s == ""
  | .slice isNil _ _ => isNil
  | .mapStr isNil _ _ => isNil
  | .float q => q == 0
  | .int n => n == 0
  | .uint n => n == 0
  | .bool b => !b
  | .time s => s == "0001-01-01T00:00:00Z"
  | .struct fs => isZeroFields fs
  | .other _ => false

def isZeroFields : List (Tag × GoValue) → Bool
  | [] => true
  | (_, v) :: rest => isZero v && isZeroFields rest
end

/-- Modelled from the spec: `attrSchema` (in a source file not present) is the
schema-mode Value Encoder; it mirrors the data-mode dispatch but emits a
placeholder/zero value per category (empty string, zero number, empty
list/map with the presence flag set, `false`) and never fails, including on
the otherwise-unsupported category. -/
def attrSchema : GoType → Value
  | .duration => strValue ""
  | .textM _ => strValue ""
  | .jsonM _ => strValue ""
  | .str => strValue ""
  | .slice _ => listValue []
  | .mapStr _ => mapValue []
  | .float => numValue (bigFloatOfFloat64 0)
  | .int => numValue (bigFloatSetInt64 0)
  | .uint => numValue (bigFloatSetUint64 0)
  | .bool => boolValue false
  | .time => strValue ""
  | .struct _ => strValue ""
  | .other _ => strValue ""

/-- The outcome of an encoding step: a normal result, a returned Go `error`
(carrying its message), or a Go `panic` (carrying its argument).  A panic
propagates through every caller; an error is a first-class value callers may
inspect. -/
inductive EncResult (α : Type) where
  | ok (a : α) : EncResult α
  | err (msg : String) : EncResult α
  | panics (msg : String) : EncResult α
deriving Repr

def EncResult.bind {α β : Type} : EncResult α → (α → EncResult β) → EncResult β
  | .ok a, f => f a
  | .err m, _ => .err m
  | .panics m, _ => .panics m

instance : Monad EncResult where
  pure := EncResult.ok
  bind := EncResult.bind

@[simp]
theorem EncResult.bind_ok {α β : Type} (a : α) (f : α → EncResult β) :
    EncResult.bind (.ok a) f = f a := rfl

@[simp]
theorem EncResult.bind_err {α β : Type} (m : String) (f : α → EncResult β) :
    EncResult.bind (.err m) f = .err m := rfl

@[simp]
theorem EncResult.bind_panics {α β : Type} (m : String) (f : α → EncResult β) :
    EncResult.bind (.panics m) f = .panics m := rfl

@[simp]
theorem EncResult.bind_eq_bind {α β : Type} (x : EncResult α) (f : α → EncResult β) :
    x >>= f = EncResult.bind x f := rfl

@[simp]
theorem EncResult.pure_eq_ok {α : Type} (a : α) :
    (pure a : EncResult α) = .ok a := rfl

/-- The comparison `sort.Slice` is given in `valueToValue`'s map case: order
map entries by their key string. -/
def keyLE (p q : String × GoValue) : Prop := p.1 ≤ q.1

instance : DecidableRel keyLE := fun p q => inferInstanceAs (Decidable (p.1 ≤ q.1))

instance : IsTotal (String × GoValue) keyLE := ⟨fun p q => le_total p.1 q.1⟩

instance : IsTrans (String × GoValue) keyLE := ⟨fun _ _ _ h h' => le_trans h h'⟩

/-- Sorting map entries by key does not change their total size (they are a
permutation), so recursing over the sorted entries is a descent. -/
theorem sizeOf_insertionSort_eq (l : List (String × GoValue)) :
    sizeOf (List.insertionSort keyLE l) = sizeOf l :=
  (List.perm_insertionSort keyLE l).sizeOf_eq_sizeOf

mutual
/-- Modelled from the spec: the schema-mode struct encode of a record *type*
(the representative-element encode that `sliceToBlockSchema`, in a source
file not present, performs).  It follows `structToEntries` on the zero value
of the type in schema mode: the Field Enumerator rejects non-record types,
label fields contribute their declared name, block fields recurse, and every
other field becomes a placeholder attribute via `attrSchema`. -/
def typeToEntriesSchema : GoType → EncResult (List Entry × List String)
  | .struct fts => typeProcessFields fts
  | t => .err ("expected a struct but received " ++ goTypeName t)
termination_by ty => (sizeOf ty, 0)

def typeProcessFields : List (Tag × GoType) → EncResult (List Entry × List String)
  | [] => .ok ([], [])
  | (t, ty) :: rest => do
    let (es, ls) ← typeProcessField t ty
    let (es2, ls2) ← typeProcessFields rest
    .ok (es ++ es2, ls ++ ls2)
termination_by l => (sizeOf l, 3)

def typeProcessField (t : Tag) (ty : GoType) : EncResult (List Entry × List String) :=
  if t.label then .ok ([], [t.name])
  else if t.block then
    match ty with
    | .slice e =>
      match sliceToBlockSchema (.slice e) t with
      | .ok b => .ok ([Entry.mk none (some b) t.comments], [])
      | .err _ => .ok ([], [])
      | .panics m => .panics m
    | ty => do
      let b ← typeToBlock ty t
      .ok ([Entry.mk none (some b) t.comments], [])
  else .ok ([Entry.mk (some (Attribute.mk t.name (attrSchema ty))) none t.comments], [])
termination_by (sizeOf ty, 2)

def typeToBlock (ty : GoType) (t : Tag) : EncResult Block := do
  let (body, labels) ← typeToEntriesSchema ty
  .ok (Block.mk t.name labels body)
termination_by (sizeOf ty, 1)

/-- Modelled from the spec: `sliceToBlockSchema` (in a source file not
present) encodes exactly one representative element's shape of a
slice-of-records type as a single `Block`; its failure (a non-record element
type) is a returned error. -/
def sliceToBlockSchema (ty : GoType) (t : Tag) : EncResult Block :=
  match ty with
  | .slice e => typeToBlock e t
  | ty => .err ("expected a slice but received " ++ goTypeName ty)
termination_by (sizeOf ty, 1)
end

mutual
/-- Function `valueToValue` (`marshal.go`): the data-mode Value Encoder.  Type dispatch
in source order: `time.Duration`, `encoding.TextMarshaler`, `json.Marshaler`,
then by kind: string, slice, map (entries sorted ascending by key string
before encoding), float, signed integer, unsigned integer, bool, and in the
default case `time.Time`; any remaining type panics with the type's name. -/
def valueToValue : GoValue → EncResult Value
  | .duration ns => .ok (strValue (durationString ns))
  | .textM _ res =>
    match res with
    | .ok s => .ok (strValue s)
    | .error e => .err e
  | .jsonM _ res =>
    match res with
    | .ok s => .ok (strValue s)
    | .error e => .err e
  | .str s => .ok (strValue s)
  | .slice _ _ elems => do
    let list ← encodeElems elems
    .ok (listValue list)
  | .mapStr _ _ entries => do
    let ms ← encodeMapEntries (List.insertionSort keyLE entries)
    .ok (mapValue ms)
  | .float q => .ok (numValue (bigFloatOfFloat64 q))
  | .int n => .ok (numValue (bigFloatSetInt64 n))
  | .uint n => .ok (numValue (bigFloatSetUint64 n))
  | .bool b => .ok (boolValue b)
  | .time s => .ok (strValue s)
  | .struct fs => .panics (goTypeName (GoType.struct (goTypeOfFields fs)))
  | .other n => .panics (goTypeName (.other n))
termination_by v => (sizeOf v, 0)
decreasing_by
all_goals first
  | decreasing_tactic
  | (simp_wf; rw [sizeOf_insertionSort_eq]; omega)

/-- The element loop of `valueToValue`'s slice case. -/
def encodeElems : List GoValue → EncResult (List Value)
  | [] => .ok []
  | v :: rest => do
    let ev ← valueToValue v
    let rest' ← encodeElems rest
    .ok (ev :: rest')
termination_by l => (sizeOf l, 0)

/-- The entry loop of `valueToValue`'s map case, run over the already-sorted
entries; each produced `MapEntry` pairs the `Str`-valued key with the
recursively encoded value. -/
def encodeMapEntries : List (String × GoValue) → EncResult (List MapEntry)
  | [] => .ok []
  | (k, v) :: rest => do
    let ev ← valueToValue v
    let rest' ← encodeMapEntries rest
    .ok (MapEntry.mk (strValue k) ev [] :: rest')
termination_by l => (sizeOf l, 0)

/-- Function `structToEntries` (`marshal.go`).  `flattenFields` / `parseTag` are
collaborators outside the given sources; per the spec they resolve a record
value to its ordered (field value, descriptor) list and fail on non-records,
which the embedding models by reading the declared field list of a `struct`
value directly. -/
def structToEntries (v : GoValue) (schema : Bool) : EncResult (List Entry × List String) :=
  match v with
  | .struct fs => processFields fs schema
  | v => .err ("expected a struct but received " ++ goTypeName (goTypeOf v))
termination_by (sizeOf v, 0)

/-- The field loop of `structToEntries`: entries and labels are appended in
field order, and the first failure aborts. -/
def processFields : List (Tag × GoValue) → Bool → EncResult (List Entry × List String)
  | [], _ => .ok ([], [])
  | (t, fv) :: rest, schema => do
    let (es, ls) ← processField t fv schema
    let (es2, ls2) ← processFields rest schema
    .ok (es ++ es2, ls ++ ls2)
termination_by l _ => (sizeOf l, 3)

/-- The per-field `switch` of `structToEntries`, in source order: label
fields extend `Labels` (declared name in schema mode, the value's string form
otherwise); block fields produce Block entries — for a slice in schema mode a
failing `sliceToBlockSchema` is silently skipped (the `err` it assigns is a
fresh inner variable, so the enclosing error check sees `nil`); optional
zero-valued fields outside schema mode produce nothing; all other fields
become attribute entries. -/
def processField (t : Tag) (fv : GoValue) (schema : Bool) : EncResult (List Entry × List String) :=
  if t.label then .ok ([], [if schema then t.name else goString fv])
  else if t.block then
    match fv with
    | .slice _ elemTy elems =>
      if schema then
        match sliceToBlockSchema (.slice elemTy) t with
        | .ok b => .ok ([Entry.mk none (some b) t.comments], [])
        | .err _ => .ok ([], [])
        | .panics m => .panics m
      else do
        let blocks ← sliceToBlocks elems t
        .ok (blocks.map (fun b => Entry.mk none (some b) t.comments), [])
    | fv => do
      let b ← valueToBlock fv t schema
      .ok ([Entry.mk none (some b) t.comments], [])
  else if t.optional && isZero fv && !schema then .ok ([], [])
  else do
    let a ← fieldToAttr t fv schema
    .ok ([Entry.mk (some a) none t.comments], [])
termination_by (sizeOf fv, 2)

/-- Function `fieldToAttr` (`marshal.go`): schema mode consults `attrSchema` on the
field's type, data mode encodes the field's value. -/
def fieldToAttr (t : Tag) (fv : GoValue) (schema : Bool) : EncResult Attribute :=
  if schema then .ok (Attribute.mk t.name (attrSchema (goTypeOf fv)))
  else do
    let v ← valueToValue fv
    .ok (Attribute.mk t.name v)

/-- Function `valueToBlock` (`marshal.go`). -/
def valueToBlock (fv : GoValue) (t : Tag) (schema : Bool) : EncResult Block := do
  let (body, labels) ← structToEntries fv schema
  .ok (Block.mk t.name labels body)
termination_by (sizeOf fv, 1)

/-- Function `sliceToBlocks` (`marshal.go`): one block per element, always in data
mode. -/
def sliceToBlocks : List GoValue → Tag → EncResult (List Block)
  | [], _ => .ok []
  | v :: rest, t => do
    let b ← valueToBlock v t false
    let bs ← sliceToBlocks rest t
    .ok (b :: bs)
termination_by l _ => (sizeOf l, 0)
end

/-- The quoted rendering of a string.  Modelled from the spec: strings and
block labels render double-quoted; escaping of special characters inside the
text is not specified and no claim exercises it, so the text is embedded
as-is. -/
def quoteStr (s : String) : String :=
  "\"" ++ s ++ "\""

/-- Drop trailing `'0'` characters. -/
def stripTrailingZeros (s : String) : String :=
  String.mk ((s.toList.reverse.dropWhile (fun c => c = '0')).reverse)

/-- Modelled from the spec: the minimal-decimal rendering of a `Number`
("no trailing zeros or scientific notation").  Every `Number` the encoder
builds is a dyadic rational, so a value `num / 2^k` is rendered as
`num * 5^k` shifted `k` decimal places with trailing fraction zeros
stripped. -/
def numberText (b : BigFloat) : String :=
  let q := b.val
  if q.den = 1 then toString q.num
  else
    let k := Nat.log2 q.den
    let scaled := q.num * (5 : Int) ^ k
    let sgn := if scaled < 0 then "-" else ""
    let digits := toString scaled.natAbs
    let padded := String.mk (List.replicate (k + 1 - digits.length) '0') ++ digits
    let intPart := padded.dropRight k
    let fracPart := stripTrailingZeros (padded.takeRight k)
    if fracPart = "" then sgn ++ intPart else sgn ++ intPart ++ "." ++ fracPart

mutual
/-- Modelled from the spec: `Value.String` (in a source file not present),
the canonical single-line textual form of a value — quoted string, minimal
decimal, bare `true`/`false`, `[v1, v2, ...]` for a list.  A map reached
through a list has no spec-defined form and renders as a single-line
`{k: v, ...}`; exactly one variant of a well-formed value is populated, so
the dispatch order is immaterial. -/
def valueText : Value → String
  | .mk s n b hl l hm m =>
    match s with
    | some str => quoteStr str
    | none =>
      match n with
      | some num => numberText num
      | none =>
        match b with
        | some bv => if bv then "true" else "false"
        | none =>
          if hl then "[" ++ valuesText l ++ "]"
          else if hm then "\x7b" ++ mapEntriesInline m ++ "\x7d"
          else ""

def valuesText : List Value → String
  | [] => ""
  | [v] => valueText v
  | v :: rest => valueText v ++ ", " ++ valuesText rest

def mapEntriesInline : List MapEntry → String
  | [] => ""
  | [.mk k v _] => valueText k ++ ": " ++ valueText v
  | .mk k v _ :: rest => valueText k ++ ": " ++ valueText v ++ ", " ++ mapEntriesInline rest
end

/-- Modelled from the spec: the key of a map entry renders bare
(`a: 2,`, spec section 8); the encoder always stores keys as `Str`
values. -/
def mapKeyText (k : Value) : String :=
  match k.str with
  | some s => s
  | none => valueText k

/-- Function `marshalComments` (`marshal.go`): each comment line verbatim at the
current indent. -/
def marshalComments (indent : String) (comments : List String) : String :=
  String.join (comments.map (fun c => indent ++ c ++ "\n"))

mutual
/-- Function `marshalValue` (`marshal.go`): a map value renders multi-line via
`marshalMap` one indent level deeper; everything else renders via its
canonical textual form. -/
def marshalValue : String → Value → String
  | indent, .mk s n b hl l hm m =>
    if hm then marshalMap (indent ++ "  ") m
    else valueText (.mk s n b hl l hm m)
termination_by _ v => (sizeOf v, 1)

/-- Function `marshalMap` (`marshal.go`): `{`, one `key: value,` line per entry (with
its comments) at the given indent, and the closing brace two columns back. -/
def marshalMap : String → List MapEntry → String
  | indent, entries =>
    "\x7b\n" ++ marshalMapEntries indent entries ++ indent.dropRight 2 ++ "\x7d"
termination_by _ entries => (sizeOf entries, 1)

def marshalMapEntries : String → List MapEntry → String
  | _, [] => ""
  | indent, .mk k v cs :: rest =>
    marshalComments indent cs ++ indent ++ mapKeyText k ++ ": " ++
      marshalValue (indent ++ "  ") v ++ ",\n" ++ marshalMapEntries indent rest
termination_by _ entries => (sizeOf entries, 0)
end

/-- Function `marshalAttribute` (`marshal.go`): `<indent><key> = <value>` and a
newline. -/
def marshalAttribute (indent : String) (a : Attribute) : String :=
  indent ++ a.key ++ " = " ++ marshalValue indent a.value ++ "\n"

mutual
/-- Function `marshalBlock` (`marshal.go`): `<indent><name> "<label>" ... {`, the body
one level deeper, `<indent>}` and a newline. -/
def marshalBlock : String → Block → EncResult String
  | indent, .mk name labels body => do
    let b ← marshalEntries (indent ++ "  ") body
    .ok (indent ++ name ++ " " ++ String.join (labels.map (fun l => quoteStr l ++ " ")) ++
      "\x7b\n" ++ b ++ indent ++ "\x7d\n")
termination_by _ b => sizeOf b

/-- Function `marshalEntries` (`marshal.go`): comments, then the block or attribute;
after a block that is not the last entry, one extra newline (a blank line);
an entry with neither populated panics (`"??"`). -/
def marshalEntries : String → List Entry → EncResult String
  | _, [] => .ok ""
  | indent, .mk a blk cs :: rest => do
    let head := marshalComments indent cs
    match blk with
    | some b => do
      let sb ← marshalBlock indent b
      let sep := if rest.isEmpty then "" else "\n"
      let sr ← marshalEntries indent rest
      .ok (head ++ sb ++ sep ++ sr)
    | none =>
      match a with
      | some at0 => do
        let sr ← marshalEntries indent rest
        .ok (head ++ marshalAttribute indent at0 ++ sr)
      | none => .panics "??"
termination_by _ entries => sizeOf entries
end

/-- Function `MarshalAST` (`marshal.go`): render an AST to text (the writer is a
string accumulator). -/
def MarshalAST (ast : AST) : EncResult String :=
  marshalEntries "" ast.entries

/-- The top-level Go `interface{}` handed to `Marshal`/`MarshalToAST`,
classified the way `marshalToAST`'s reflection tests observe it: a non-nil
pointer to a struct (carrying the pointed-to struct's fields), a nil pointer
(whose `Elem` has kind `Invalid`), a pointer to a non-struct, or a
non-pointer.  `tyName` carries the `%T` rendering of the input. -/
inductive GoInput where
  | ptrStruct (tyName : String) (fields : List (Tag × GoValue)) : GoInput
  | nilPtr (tyName : String) : GoInput
  | ptrNonStruct (tyName : String) : GoInput
  | notPtr (tyName : String) : GoInput

/-- Function `marshalToAST` (`marshal.go`): reject anything that is not a pointer to a
struct with an error naming the input's type; encode the struct; reject a
non-empty label list at the top level. -/
def marshalToAST (v : GoInput) (schema : Bool) : EncResult AST :=
  match v with
  | .notPtr t => .err ("expected a pointer to a struct, not " ++ t)
  | .nilPtr t => .err ("expected a pointer to a struct, not " ++ t)
  | .ptrNonStruct t => .err ("expected a pointer to a struct, not " ++ t)
  | .ptrStruct _ fields => do
    let (entries, labels) ← structToEntries (.struct fields) schema
    if labels.length > 0 then
      .err ("unexpected labels " ++ String.intercalate ", " labels ++ " at top level")
    else .ok (AST.mk entries)

/-- Function `MarshalToAST` (`marshal.go`): the public record → AST entry point (data
mode). -/
def MarshalToAST (v : GoInput) : EncResult AST :=
  marshalToAST v false

/-- Function `Marshal` (`marshal.go`): record → AST → text. -/
def Marshal (v : GoInput) : EncResult String := do
  let ast ← MarshalToAST v
  MarshalAST ast

/-- An integer whose magnitude fits in `p` bits is not rounded. -/
theorem roundToBits_eq_of_lt (p : Nat) (m : Int) (h : m.natAbs < 2 ^ p) :
    roundToBits p m = (m : ℚ) := by
  unfold roundToBits
  simp [h]

/-- C2 (counterexample): the Value Encoder does not keep every int64/uint64
exact.  `big.NewFloat(0)` has precision 53 and `SetInt64` keeps it, so the
signed integer 2^53 + 1 = 9007199254740993 is rounded to nearest-even at 53
significant bits and is stored as 9007199254740992 — a different number than
the input. -/
theorem C2_exact_encoding_refuted :
    valueToValue (.int 9007199254740993) =
      .ok (numValue { prec := 53, val := ((9007199254740992 : Int) : ℚ) }) ∧
    ((9007199254740992 : Int) : ℚ) ≠ ((9007199254740993 : Int) : ℚ) := by
  constructor
  · have hna : (9007199254740993 : Int).natAbs = 9007199254740993 := rfl
    have hsize : Nat.size 9007199254740993 = 54 :=
      le_antisymm (Nat.size_le.mpr (by norm_num)) (Nat.lt_size.mpr (by norm_num))
    have hsign : Int.sign 9007199254740993 = 1 :=
      Int.sign_eq_one_iff_pos.mpr (by norm_num)
    have hround : roundToBits 53 9007199254740993 = ((9007199254740992 : Int) : ℚ) := by
      simp only [roundToBits, hna, hsize, hsign]
      norm_num
    simp [valueToValue, bigFloatSetInt64, hround]
  · norm_num

/-- C2 (amended): for every signed-integer and unsigned-integer runtime value
of magnitude below 2^53, the Value Encoder produces a `Number` (a `big.Float`
at the precision 53 inherited from `big.NewFloat(0)`, never a native float)
holding the input's exact decimal value; integers of larger magnitude are
rounded to nearest-even at 53 significant bits. -/
theorem C2_small_integer_encoding_exact (n : Int) (m : Nat)
    (hn : n.natAbs < 2 ^ 53) (hm : m < 2 ^ 53) :
    valueToValue (.int n) = .ok (numValue { prec := 53, val := (n : ℚ) }) ∧
    valueToValue (.uint m) = .ok (numValue { prec := 53, val := (m : ℚ) }) := by
  constructor
  · simp [valueToValue, bigFloatSetInt64, roundToBits_eq_of_lt 53 n hn]
  · have h : (m : Int).natAbs < 2 ^ 53 := by omega
    simp [valueToValue, bigFloatSetUint64, roundToBits_eq_of_lt 53 (m : Int) h]

theorem C2_small_integer_encoding_exact_witness :
    valueToValue (.int 3) = .ok (numValue { prec := 53, val := ((3 : Int) : ℚ) }) ∧
    valueToValue (.uint 5) = .ok (numValue { prec := 53, val := ((5 : Nat) : ℚ) }) :=
  ⟨(C2_small_integer_encoding_exact 3 5 (by norm_num) (by norm_num)).1,
   (C2_small_integer_encoding_exact 3 5 (by norm_num) (by norm_num)).2⟩

/-- A runtime type that matches none of `valueToValue`'s dispatch rules: a
plain struct or any unsupported (`other`) type falls through to the default
case of the kind switch without matching `time.Time`. -/
def matchesNoRule : GoValue → Bool
  | .struct _ => true
  | .other _ => true
  | _ => false

/-- C5: For every value whose runtime type matches none of the Value
Encoder's dispatch rules, data-mode encoding aborts with a panic carrying the
type's name — it is never surfaced as a normal returned error. -/
theorem C5_unsupported_type_panics (v : GoValue) (h : matchesNoRule v = true) :
    valueToValue v = .panics (goTypeName (goTypeOf v)) := by
  cases v <;> simp_all [matchesNoRule, valueToValue, goTypeOf]

theorem C5_unsupported_type_panics_witness :
    matchesNoRule (.other "chan int") = true ∧
    valueToValue (.other "chan int") = .panics "chan int" :=
  ⟨rfl, by
    have h := C5_unsupported_type_panics (.other "chan int") rfl
    simpa [goTypeOf, goTypeName] using h⟩

/-- C6: For every top-level input that is not a reference to a single record
value — a non-pointer, a nil pointer, or a pointer to a non-struct —
`MarshalToAST` returns an input-type error whose message names the offending
type, and returns no AST. -/
theorem C6_input_type_error (t : String) :
    MarshalToAST (.notPtr t) = .err ("expected a pointer to a struct, not " ++ t) ∧
    MarshalToAST (.ptrNonStruct t) = .err ("expected a pointer to a struct, not " ++ t) ∧
    MarshalToAST (.nilPtr t) = .err ("expected a pointer to a struct, not " ++ t) :=
  ⟨rfl, rfl, rfl⟩

/-- C7: For every top-level record whose encoding yields a non-empty label
list, `MarshalToAST` fails with the top-level-labels error and returns no
AST. -/
theorem C7_top_level_labels_error (tyName : String) (fields : List (Tag × GoValue))
    (es : List Entry) (ls : List String)
    (h : structToEntries (.struct fields) false = .ok (es, ls)) (hne : ls ≠ []) :
    MarshalToAST (.ptrStruct tyName fields) =
      .err ("unexpected labels " ++ String.intercalate ", " ls ++ " at top level") := by
  have hlen : 0 < ls.length := List.length_pos.mpr hne
  simp [MarshalToAST, marshalToAST, h, hlen]

theorem C7_top_level_labels_error_witness :
    MarshalToAST (.ptrStruct "*main.Config"
        [(Tag.mk "name" true false false [], .str "x")]) =
      .err "unexpected labels x at top level" := by
  have h : structToEntries (.struct [(Tag.mk "name" true false false [], .str "x")]) false =
      .ok ([], ["x"]) := by
    simp [structToEntries, processFields, processField, goString]
  have := C7_top_level_labels_error "*main.Config"
    [(Tag.mk "name" true false false [], .str "x")] [] ["x"] h (by simp)
  simpa using this

/-- C10: In schema mode, for every block-tagged field holding a sequence of
records, if the single representative schema encode of the element type
fails, the Struct Encoder silently omits that field — it appends no Block
Entry, returns no error, and continues encoding the remaining fields.  (The
failing inner `err` is a freshly declared variable, so the enclosing error
check observes `nil`.) -/
theorem C10_schema_block_failure_silently_omitted (t : Tag) (isNil : Bool)
    (elemTy : GoType) (elems : List GoValue) (msg : String)
    (hl : t.label = false) (hb : t.block = true)
    (hfail : sliceToBlockSchema (.slice elemTy) t = .err msg) :
    processField t (.slice isNil elemTy elems) true = .ok ([], []) ∧
    ∀ rest, processFields ((t, .slice isNil elemTy elems) :: rest) true =
      processFields rest true := by
  have h1 : processField t (.slice isNil elemTy elems) true = .ok ([], []) := by
    simp [processField, hl, hb, hfail]
  refine ⟨h1, fun rest => ?_⟩
  cases hr : processFields rest true <;>
    simp [processFields, h1, hr]

theorem C10_schema_block_failure_silently_omitted_witness :
    processField (Tag.mk "svc" false true false []) (.slice false .int []) true =
      .ok ([], []) ∧
    processFields [(Tag.mk "svc" false true false [], .slice false .int []),
        (Tag.mk "n" false false false [], .int 7)] true =
      processFields [(Tag.mk "n" false false false [], .int 7)] true := by
  have hfail : sliceToBlockSchema (.slice .int) (Tag.mk "svc" false true false []) =
      .err "expected a struct but received int64" := by
    simp [sliceToBlockSchema, typeToBlock, typeToEntriesSchema, goTypeName]
  have h := C10_schema_block_failure_silently_omitted (Tag.mk "svc" false true false [])
    false .int [] "expected a struct but received int64" rfl rfl hfail
  exact ⟨h.1, h.2 [(Tag.mk "n" false false false [], .int 7)]⟩

/-- C3: For every struct field classified optional (its tag marks it
optional and neither label nor block, which take precedence) whose value is
the zero value of its type: in data mode the Struct Encoder produces no
Entry for it — the encode of any field list containing it equals the encode
with the field removed — while in schema mode an Attribute Entry is still
produced for it. -/
theorem C3_optional_zero_field (t : Tag) (v : GoValue)
    (hop : t.optional = true) (hl : t.label = false) (hb : t.block = false)
    (hz : isZero v = true) :
    (∀ pre post, structToEntries (.struct (pre ++ (t, v) :: post)) false =
        structToEntries (.struct (pre ++ post)) false) ∧
    processField t v true =
      .ok ([Entry.mk (some (Attribute.mk t.name (attrSchema (goTypeOf v)))) none
        t.comments], []) := by
  have hskip : processField t v false = .ok ([], []) := by
    cases v <;> simp_all [processField, isZero]
  constructor
  · intro pre post
    simp only [structToEntries]
    induction pre with
    | nil =>
      cases hr : processFields post false <;>
        simp [processFields, hskip, hr]
    | cons p pre ih =>
      obtain ⟨pt, pv⟩ := p
      cases hp : processField pt pv false <;>
        simp [processFields, hp, ih]
  · cases v <;> simp_all [processField, fieldToAttr, isZero]

theorem C3_optional_zero_field_witness :
    structToEntries (.struct [(Tag.mk "f" false false true [], .int 0)]) false =
      structToEntries (.struct []) false ∧
    processField (Tag.mk "f" false false true []) (.int 0) true =
      .ok ([Entry.mk (some (Attribute.mk "f"
        (attrSchema (goTypeOf (.int 0))))) none []], []) := by
  have h := C3_optional_zero_field (Tag.mk "f" false false true []) (.int 0)
    rfl rfl rfl (by simp [isZero])
  exact ⟨by simpa using h.1 [] [], h.2⟩

/-- C1 (counterexample): the data-mode rendering of a struct field holding a
90-minute duration as a plain attribute with key `x` is not the line
`x = "1h30m"`: Go's canonical duration text always carries the seconds
component once minutes are present, giving `x = "1h30m0s"`. -/
theorem C1_claimed_text_refuted :
    Marshal (.ptrStruct "*main.Config"
        [(Tag.mk "x" false false false [], .duration 5400000000000)]) ≠
      .ok "x = \"1h30m\"\n" := by
  have hds : durationString 5400000000000 = "1h30m0s" := by decide
  have h : Marshal (.ptrStruct "*main.Config"
      [(Tag.mk "x" false false false [], .duration 5400000000000)]) =
      .ok "x = \"1h30m0s\"\n" := by
    simp [Marshal, MarshalToAST, marshalToAST, MarshalAST, structToEntries, processFields,
          processField, fieldToAttr, valueToValue, marshalEntries, marshalAttribute,
          marshalValue, valueText, quoteStr, strValue, marshalComments, hds, String.join]
  rw [h]
  intro hc
  injection hc with hs
  exact absurd hs (by decide)

/-- C1 (amended): for a struct field holding a duration value of 90 minutes
encoded in data mode as a plain attribute with key `x`, the duration is
encoded as a `Str` holding the canonical unit-suffixed text `1h30m0s`, and
the rendered output line is `x = "1h30m0s"`. -/
theorem C1_duration_renders_canonical :
    valueToValue (.duration 5400000000000) = .ok (strValue "1h30m0s") ∧
    Marshal (.ptrStruct "*main.Config"
        [(Tag.mk "x" false false false [], .duration 5400000000000)]) =
      .ok "x = \"1h30m0s\"\n" := by
  have hds : durationString 5400000000000 = "1h30m0s" := by decide
  constructor
  · simp [valueToValue, hds]
  · simp [Marshal, MarshalToAST, marshalToAST, MarshalAST, structToEntries, processFields,
          processField, fieldToAttr, valueToValue, marshalEntries, marshalAttribute,
          marshalValue, valueText, quoteStr, strValue, marshalComments, hds, String.join]

/-- C8: For every sequence field of length zero and every mapping field with
zero entries, the Value Encoder sets the presence flag (`HaveList` /
`HaveMap`), and the attribute renders as `[]` respectively `{}` — never as
absent. -/
theorem C8_empty_collections_present (b : Bool) (ty : GoType) :
    valueToValue (.slice b ty []) = .ok (listValue []) ∧
    (listValue []).haveList = true ∧
    valueToValue (.mapStr b ty []) = .ok (mapValue []) ∧
    (mapValue []).haveMap = true ∧
    marshalAttribute "" (Attribute.mk "x" (listValue [])) = "x = []\n" ∧
    marshalAttribute "" (Attribute.mk "x" (mapValue [])) = "x = \x7b\n\x7d\n" := by
  refine ⟨?_, rfl, ?_, rfl, ?_, ?_⟩
  · simp [valueToValue, encodeElems]
  · simp [valueToValue, encodeMapEntries, List.insertionSort]
  · simp [marshalAttribute, marshalValue, valueText, valuesText, listValue]
  · simp [marshalAttribute, marshalValue, marshalMap, marshalMapEntries, mapValue]
    decide

/-- The rendering of one entry by itself (comments, then its block or
attribute), used to state the blank-line policy of `marshalEntries`. -/
def entryOut (indent : String) (e : Entry) : EncResult String :=
  match e with
  | .mk a blk cs =>
    match blk with
    | some b => (marshalBlock indent b).bind (fun s => .ok (marshalComments indent cs ++ s))
    | none =>
      match a with
      | some at0 => .ok (marshalComments indent cs ++ marshalAttribute indent at0)
      | none => .panics "??"

/-- C9: For every Entry sequence rendered by the Renderer, exactly one blank
line (one extra newline) is emitted after each Block Entry except when it is
the last Entry among its siblings, where no trailing blank line is emitted;
Attribute Entries get no blank line. -/
theorem C9_blank_line_after_blocks (indent : String) (e : Entry) (rest : List Entry) :
    marshalEntries indent [e] = entryOut indent e ∧
    (rest ≠ [] → marshalEntries indent (e :: rest) =
      (entryOut indent e).bind (fun s => (marshalEntries indent rest).bind (fun r =>
        .ok (s ++ (if e.block.isSome then "\n" else "") ++ r)))) := by
  obtain ⟨a, blk, cs⟩ := e
  cases blk with
  | some b =>
    constructor
    · cases hb : marshalBlock indent b <;>
        simp [marshalEntries, entryOut, hb, String.append_empty]
    · intro hne
      obtain ⟨r, rs, rfl⟩ := List.exists_cons_of_ne_nil hne
      cases hb : marshalBlock indent b <;>
        cases hr : marshalEntries indent (r :: rs) <;>
          simp [marshalEntries, entryOut, hb, hr, Entry.block, String.append_assoc]
  | none =>
    cases a with
    | some at0 =>
      constructor
      · simp [marshalEntries, entryOut, String.append_empty]
      · intro hne
        obtain ⟨r, rs, rfl⟩ := List.exists_cons_of_ne_nil hne
        cases hr : marshalEntries indent (r :: rs) <;>
          simp [marshalEntries, entryOut, hr, Entry.block, String.append_empty,
            String.append_assoc]
    | none =>
      constructor
      · simp [marshalEntries, entryOut]
      · intro hne
        obtain ⟨r, rs, rfl⟩ := List.exists_cons_of_ne_nil hne
        simp [marshalEntries, entryOut]

theorem C9_blank_line_after_blocks_witness :
    marshalEntries "" [Entry.mk none (some (Block.mk "b" [] [])) [],
        Entry.mk (some (Attribute.mk "k" (strValue "v"))) none []] =
      (entryOut "" (Entry.mk none (some (Block.mk "b" [] [])) [])).bind (fun s =>
        (marshalEntries "" [Entry.mk (some (Attribute.mk "k" (strValue "v"))) none []]).bind
          (fun r => .ok (s ++
            (if (Entry.mk none (some (Block.mk "b" [] [])) []).block.isSome then "\n"
             else "") ++ r))) :=
  (C9_blank_line_after_blocks "" (Entry.mk none (some (Block.mk "b" [] [])) [])
    [Entry.mk (some (Attribute.mk "k" (strValue "v"))) none []]).2 (by simp)

/-- The key string of an encoded map entry (the encoder stores every key as
a `Str` value). -/
def mapEntryKey (me : MapEntry) : String :=
  me.key.str.getD ""

instance : IsAntisymm (String × GoValue) (fun p q => p.1 < q.1) :=
  ⟨fun _ _ h h' => absurd (lt_trans h h') (lt_irrefl _)⟩

/-- Encoding a list of map entries preserves their keys, in order. -/
theorem encodeMapEntries_keys : ∀ (l : List (String × GoValue)) (ms : List MapEntry),
    encodeMapEntries l = .ok ms → ms.map mapEntryKey = l.map Prod.fst := by
  intro l
  induction l with
  | nil => intro ms h; simp [encodeMapEntries] at h; simp [← h]
  | cons p rest ih =>
    obtain ⟨k, v⟩ := p
    intro ms h
    cases hv : valueToValue v <;> cases hr : encodeMapEntries rest <;>
      simp [encodeMapEntries, hv, hr] at h
    subst h
    simp [mapEntryKey, strValue, Value.str, MapEntry.key, ih _ hr]

/-- When the keys are distinct (as they always are for a Go map), the sorted
entry list is strictly increasing in its keys. -/
theorem sortedEntries_strict (l : List (String × GoValue))
    (hnd : (l.map Prod.fst).Nodup) :
    (List.insertionSort keyLE l).Pairwise (fun p q => p.1 < q.1) := by
  have hs : (List.insertionSort keyLE l).Pairwise keyLE :=
    List.sorted_insertionSort keyLE l
  have hnd' : ((List.insertionSort keyLE l).map Prod.fst).Nodup :=
    ((List.perm_insertionSort keyLE l).map Prod.fst).nodup_iff.mpr hnd
  have hne : (List.insertionSort keyLE l).Pairwise (fun p q => p.1 ≠ q.1) :=
    List.pairwise_map.mp hnd'
  exact (hs.and hne).imp (fun h => lt_of_le_of_ne h.1 h.2)

/-- C4: For every string-keyed mapping value, the Value Encoder produces its
`MapEntry` list sorted ascending by key string, independent of the map's
iteration/insertion order: two entry lists that are permutations of one
another encode identically, and the keys of any successful encoding are
sorted ascending. -/
theorem C4_map_entries_sorted (b : Bool) (ty : GoType) (l1 l2 : List (String × GoValue))
    (hperm : l1.Perm l2) (hnd : (l1.map Prod.fst).Nodup) :
    valueToValue (.mapStr b ty l1) = valueToValue (.mapStr b ty l2) ∧
    (∀ v, valueToValue (.mapStr b ty l1) = .ok v →
      (v.mapEntries.map mapEntryKey).Sorted (fun a b => a ≤ b)) := by
  have hnd2 : (l2.map Prod.fst).Nodup := ((hperm.map Prod.fst).nodup_iff).mp hnd
  have p : (List.insertionSort keyLE l1).Perm (List.insertionSort keyLE l2) :=
    (List.perm_insertionSort keyLE l1).trans
      (hperm.trans (List.perm_insertionSort keyLE l2).symm)
  have sortEq : List.insertionSort keyLE l1 = List.insertionSort keyLE l2 :=
    List.eq_of_perm_of_sorted p (sortedEntries_strict l1 hnd) (sortedEntries_strict l2 hnd2)
  constructor
  · simp only [valueToValue]
    rw [sortEq]
  · intro v hv
    simp only [valueToValue] at hv
    cases he : encodeMapEntries (List.insertionSort keyLE l1) with
    | ok ms =>
      rw [he] at hv
      simp at hv
      have hkeys : ms.map mapEntryKey = (List.insertionSort keyLE l1).map Prod.fst :=
        encodeMapEntries_keys _ _ he
      have hsorted : ((List.insertionSort keyLE l1).map Prod.fst).Pairwise
          (fun a b : String => a ≤ b) :=
        List.pairwise_map.mpr ((List.sorted_insertionSort keyLE l1).imp (fun h => h))
      rw [← hv]
      simpa [mapValue, Value.mapEntries, hkeys] using hsorted
    | err m => rw [he] at hv; simp at hv
    | panics m => rw [he] at hv; simp at hv

theorem C4_map_entries_sorted_witness :
    valueToValue (.mapStr false .int [("b", GoValue.int 1), ("a", GoValue.int 2)]) =
      valueToValue (.mapStr false .int [("a", GoValue.int 2), ("b", GoValue.int 1)]) ∧
    valueToValue (.mapStr false .int [("b", GoValue.int 1), ("a", GoValue.int 2)]) =
      .ok (mapValue [MapEntry.mk (strValue "a") (numValue { prec := 53, val := 2 }) [],
                     MapEntry.mk (strValue "b") (numValue { prec := 53, val := 1 }) []]) ∧
    marshalAttribute "" (Attribute.mk "x" (mapValue
        [MapEntry.mk (strValue "a") (numValue { prec := 53, val := 2 }) [],
         MapEntry.mk (strValue "b") (numValue { prec := 53, val := 1 }) []])) =
      "x = \x7b\n  a: 2,\n  b: 1,\n\x7d\n" := by
  refine ⟨(C4_map_entries_sorted false .int
      [("b", GoValue.int 1), ("a", GoValue.int 2)]
      [("a", GoValue.int 2), ("b", GoValue.int 1)]
      (List.Perm.swap _ _ _) (by decide)).1, ?_, ?_⟩
  · simp [valueToValue, encodeMapEntries, List.insertionSort, List.orderedInsert, keyLE,
          bigFloatSetInt64, roundToBits,
          show ¬((['b'] : List Char) ≤ ['a']) from by decide]
  · simp [marshalAttribute, marshalValue, marshalMap, marshalMapEntries, mapValue,
          mapKeyText, valueText, strValue, numValue, Value.str, MapEntry.key,
          marshalComments]
    decide
